import Mathlib

/-!
Verification of the strava_dashboard track-data derivation pipeline.

This file gives a shallow embedding, over `ℚ`, of the pipeline implemented in
`src/strava/utils/activity_processing.py` (`_create_track_df`,
`_calculate_metrics`, `_calculate_splits`), the per-record field extraction of
`src/strava/utils/file_parsing.py` (`_parse_fit`, `_parse_fit_messages`) and
`src/strava/db/import_streams.py` (`parse_fit_file`), and the heart-rate zone
classifier `get_zone_idx` of `src/strava/views/deep_dive.py`.

Missing float values (NaN/NaT/None) are modelled as `Option ℚ` entries; where
IEEE division/comparison semantics matter (derived metric columns) values are
modelled by `FVal`, an extended-rational type with NaN and signed infinities.
Pandas DataFrames are modelled column-wise as lists of equal length.
-/

set_option maxHeartbeats 1600000

namespace Strava

/-- IEEE-754-style extended value over `ℚ`: `nan` models a float NaN (a pandas
null), `inf b` an infinity with sign `b` (`true` = positive), `fin q` a finite
value.  Rational arithmetic is exact where floats round, which the spec's
"within floating-point tolerance" reading permits. -/
inductive FVal where
  | nan : FVal
  | inf : Bool → FVal
  | fin : ℚ → FVal
deriving DecidableEq

namespace FVal

/-- Is this value a NaN (`pd.isna` on a float column entry)? -/
def isNan : FVal → Bool
  | nan => true
  | _ => false

/-- IEEE addition on extended values (used by rolling sums). -/
def add : FVal → FVal → FVal
  | nan, _ => nan
  | _, nan => nan
  | inf s, inf t => if s = t then inf s else nan
  | inf s, fin _ => inf s
  | fin _, inf t => inf t
  | fin a, fin b => fin (a + b)

/-- IEEE subtraction on extended values (used by `.diff()` columns). -/
def sub : FVal → FVal → FVal
  | nan, _ => nan
  | _, nan => nan
  | inf s, inf t => if s = t then nan else inf s
  | inf s, fin _ => inf s
  | fin _, inf t => inf !t
  | fin a, fin b => fin (a - b)

/-- IEEE multiplication on extended values. -/
def mul : FVal → FVal → FVal
  | nan, _ => nan
  | _, nan => nan
  | inf s, inf t => inf (s == t)
  | inf s, fin b => if b = 0 then nan else if 0 < b then inf s else inf !s
  | fin a, inf t => if a = 0 then nan else if 0 < a then inf t else inf !t
  | fin a, fin b => fin (a * b)

/-- IEEE division on extended values.  This is the unguarded `/` of numpy:
`x / 0` is `±inf` for `x ≠ 0`, `0 / 0` is NaN, and no exception is possible. -/
def div : FVal → FVal → FVal
  | nan, _ => nan
  | _, nan => nan
  | inf _, inf _ => nan
  | fin _, inf _ => fin 0
  | inf s, fin b => if b < 0 then inf !s else inf s
  | fin a, fin b =>
    if b = 0 then (if a = 0 then nan else if 0 < a then inf true else inf false)
    else fin (a / b)

/-- Float comparison `v > c` as in pandas: NaN compares `false`. -/
def gtQ (v : FVal) (c : ℚ) : Bool :=
  match v with
  | nan => false
  | inf s => s
  | fin a => if c < a then true else false

/-- Float comparison `v < c` as in pandas: NaN compares `false`. -/
def ltQ (v : FVal) (c : ℚ) : Bool :=
  match v with
  | nan => false
  | inf s => !s
  | fin a => if a < c then true else false

/-- `Series.clip(lo, hi)`: clamp into `[lo, hi]`; NaN passes through,
infinities clamp to the corresponding bound. -/
def clip (lo hi : ℚ) : FVal → FVal
  | nan => nan
  | inf s => if s then fin hi else fin lo
  | fin a => fin (min (max a lo) hi)

/-- `Series.fillna(z)`: replace NaN by `z`, leave everything else. -/
def fillna (z : ℚ) : FVal → FVal
  | nan => fin z
  | inf s => inf s
  | fin a => fin a

end FVal

/-- View an optional rational (a raw float column entry) as an `FVal`. -/
def toF : Option ℚ → FVal
  | none => FVal.nan
  | some a => FVal.fin a

/-- NaN-propagating subtraction on optional rationals (timestamp arithmetic). -/
def osub (a b : Option ℚ) : Option ℚ :=
  match a, b with
  | some x, some y => some (x - y)
  | _, _ => none

/-- Null-safe mean (`Series.mean()`): NaN entries are skipped; the mean of an
all-null column is null. -/
def omean (l : List (Option ℚ)) : Option ℚ :=
  let vs := l.reduceOption
  if vs.isEmpty then none else some (vs.sum / vs.length)

/-- Mean of the non-NaN entries of a window (`rolling(...).mean()` with
`min_periods=1`): skips NaN, is NaN when every entry is NaN. -/
def fmean (l : List FVal) : FVal :=
  let vs := l.filter (fun v => !v.isNan)
  if vs.isEmpty then FVal.nan
  else FVal.div (vs.foldl FVal.add (FVal.fin 0)) (FVal.fin vs.length)

/-- Trailing rolling mean of window `w`, `min_periods=1`
(`Series.rolling(window=w, min_periods=1).mean()`). -/
def rollingMeanTrailing (w : ℕ) (l : List FVal) : List FVal :=
  (List.range l.length).map fun i => fmean ((l.take (i + 1)).drop (i + 1 - w))

/-- Centered rolling mean of window `2*half+1`, `min_periods=1`
(`Series.rolling(window=2*half+1, min_periods=1, center=True).mean()`). -/
def rollingMeanCentered (half : ℕ) (l : List FVal) : List FVal :=
  (List.range l.length).map fun i => fmean ((l.take (i + half + 1)).drop (i - half))

/-- The normalized track table (`track_df` of `_create_track_df`), stored
column-wise; all columns of a table built by the normalizer have equal
length.  Entries are `none` where pandas holds NaN/NaT. -/
structure TrackDF where
  time : List (Option ℚ)
  hr : List (Option ℚ)
  alt : List (Option ℚ)
  dist : List (Option ℚ)
  lat : List (Option ℚ)
  lon : List (Option ℚ)
deriving DecidableEq

/-- The empty DataFrame (`pd.DataFrame()`). -/
def TrackDF.empty : TrackDF :=
  { time := [], hr := [], alt := [], dist := [], lat := [], lon := [] }

/-- The `adjust` helper of `_create_track_df`: pad a column with nulls if
shorter than the timestamp column, truncate if longer. -/
def adjust (minLen : ℕ) (lst : List (Option ℚ)) : List (Option ℚ) :=
  if lst.length < minLen then lst ++ List.replicate (minLen - lst.length) none
  else lst.take minLen

/-- Forward fill with accumulator `acc` = last seen value (`Series.ffill()`). -/
def ffillFrom (acc : Option ℚ) : List (Option ℚ) → List (Option ℚ)
  | [] => []
  | x :: xs =>
    match x with
    | some v => some v :: ffillFrom (some v) xs
    | none => acc :: ffillFrom acc xs

/-- `Series.ffill()`: carry the last known value into a null cell. -/
def ffillCol (l : List (Option ℚ)) : List (Option ℚ) :=
  ffillFrom none l

/-- The `to_degrees` helper of `_create_track_df`: values whose magnitude
exceeds 180 are taken to be FIT semicircles and converted to degrees. -/
def to_degrees (v : Option ℚ) : Option ℚ :=
  match v with
  | none => none
  | some v => if 180 < |v| then some (v * (180 / 2 ^ 31)) else some v

/-- Keep the entries of `col` whose mask bit is `true`
(row filtering, as done by `dropna(subset=["Time"])` on every column). -/
def maskKeep (mask : List Bool) (col : List (Option ℚ)) : List (Option ℚ) :=
  (mask.zip col).filterMap fun p => if p.1 then some p.2 else none

/-- `_create_track_df` (activity_processing.py lines 4-59): empty timestamps
give an empty table; other columns are padded/truncated to the timestamp
length; HR/altitude/distance are forward-filled (HR twice, as in the source);
lat/lon default to all-null when absent and get semicircle conversion; finally
rows whose timestamp failed to parse (`none`) are dropped.  `timestamps`
models the result of `pd.to_datetime(..., errors="coerce")` and the numeric
columns the result of `pd.to_numeric(..., errors="coerce")`. -/
def _create_track_df (timestamps hrs alts dists lats lons : List (Option ℚ)) : TrackDF :=
  if timestamps.isEmpty then TrackDF.empty
  else
    let minLen := timestamps.length
    let hrs := adjust minLen hrs
    let alts := adjust minLen alts
    let dists := adjust minLen dists
    let latCol := (if lats.isEmpty then List.replicate minLen none else lats).map to_degrees
    let lonCol := (if lons.isEmpty then List.replicate minLen none else lons).map to_degrees
    let distF := ffillCol dists
    let altF := ffillCol alts
    let hrF := ffillCol (ffillCol hrs)
    let mask := timestamps.map Option.isSome
    { time := maskKeep mask timestamps
      hr := maskKeep mask hrF
      alt := maskKeep mask altF
      dist := maskKeep mask distF
      lat := maskKeep mask latCol
      lon := maskKeep mask lonCol }

/-- `Series.diff()`: first row NaN, then each row minus the previous row. -/
def diffF : List FVal → List FVal
  | [] => []
  | x :: xs => FVal.nan :: List.zipWith FVal.sub xs (x :: xs)

/-- `Elapsed Seconds` column: each timestamp minus the first row's timestamp. -/
def elapsedCol (df : TrackDF) : List (Option ℚ) :=
  match df.time with
  | [] => []
  | t0 :: _ => df.time.map fun t => osub t t0

/-- `Altitude_Smooth`: centered 15-sample rolling mean of altitude. -/
def altSmoothCol (df : TrackDF) : List FVal :=
  rollingMeanCentered 7 (df.alt.map toF)

/-- `Dist_Diff` column. -/
def distDiffCol (df : TrackDF) : List FVal :=
  diffF (df.dist.map toF)

/-- `Time_Diff` column (diff of elapsed seconds). -/
def timeDiffCol (df : TrackDF) : List FVal :=
  diffF ((elapsedCol df).map toF)

/-- `Alt_Diff` column (diff of smoothed altitude). -/
def altDiffCol (df : TrackDF) : List FVal :=
  diffF (altSmoothCol df)

/-- `Speed_m_s = Dist_Diff / Time_Diff`, the bare vectorized division of
line 80 of activity_processing.py — there is no guard around it. -/
def speedCol (df : TrackDF) : List FVal :=
  List.zipWith FVal.div (distDiffCol df) (timeDiffCol df)

/-- `Is_Moving = Speed_m_s > 0.5` (pandas comparison: NaN compares False). -/
def isMovingCol (df : TrackDF) : List Bool :=
  (speedCol df).map fun v => v.gtQ (1 / 2)

/-- `Speed_Smooth`: trailing 10-sample rolling mean of speed. -/
def speedSmoothCol (df : TrackDF) : List FVal :=
  rollingMeanTrailing 10 (speedCol df)

/-- Raw `Grade = Alt_Diff / Dist_Diff`. -/
def gradeRawCol (df : TrackDF) : List FVal :=
  List.zipWith FVal.div (altDiffCol df) (distDiffCol df)

/-- Grade after `track_df.loc[track_df["Dist_Diff"] < 1, "Grade"] = 0`. -/
def gradeMaskedCol (df : TrackDF) : List FVal :=
  List.zipWith (fun g d => if d.ltQ 1 then FVal.fin 0 else g) (gradeRawCol df) (distDiffCol df)

/-- Final `Grade` column: `.clip(-0.4, 0.4).fillna(0)`. -/
def gradeCol (df : TrackDF) : List FVal :=
  ((gradeMaskedCol df).map (FVal.clip (-(2 / 5)) (2 / 5))).map (FVal.fillna 0)

/-- `get_gap_factor` of `_calculate_metrics`: `1 + 9*grade` uphill,
`1 + 4*grade` otherwise. -/
def get_gap_factor (g : FVal) : FVal :=
  if g.gtQ 0 then FVal.add (FVal.fin 1) (FVal.mul (FVal.fin 9) g)
  else FVal.add (FVal.fin 1) (FVal.mul (FVal.fin 4) g)

/-- `GAP_Factor` column. -/
def gapFactorCol (df : TrackDF) : List FVal :=
  (gradeCol df).map get_gap_factor

/-- `Speed_GAP = Speed_Smooth * GAP_Factor`. -/
def speedGapCol (df : TrackDF) : List FVal :=
  List.zipWith FVal.mul (speedSmoothCol df) (gapFactorCol df)

/-- `get_pace` of `_calculate_metrics` (lines 102-105): `None` when the speed
is NaN or `< 0.1`, else `(1000 / speed) / 60`.  On `+inf` the comparison is
False and the division returns 0. -/
def get_pace (v : FVal) : Option ℚ :=
  match v with
  | FVal.nan => none
  | FVal.inf s => if s then some 0 else none
  | FVal.fin a => if a < 1 / 10 then none else some (1000 / a / 60)

/-- `Pace_Decimal` column. -/
def paceCol (df : TrackDF) : List (Option ℚ) :=
  (speedSmoothCol df).map get_pace

/-- `GAP_Pace_Decimal` column. -/
def gapPaceCol (df : TrackDF) : List (Option ℚ) :=
  (speedGapCol df).map get_pace

/-- `Elev_Gain_Step = Alt_Diff.apply(lambda x: x if x > 0 else 0)`. -/
def elevGainStepCol (df : TrackDF) : List FVal :=
  (altDiffCol df).map fun x => if x.gtQ 0 then x else FVal.fin 0

/-- The table produced by `_calculate_metrics`: the input columns together
with every derived column. -/
structure MetricsDF where
  time : List (Option ℚ)
  hr : List (Option ℚ)
  alt : List (Option ℚ)
  dist : List (Option ℚ)
  lat : List (Option ℚ)
  lon : List (Option ℚ)
  elapsed : List (Option ℚ)
  Altitude_Smooth : List FVal
  Dist_Diff : List FVal
  Time_Diff : List FVal
  Alt_Diff : List FVal
  Speed_m_s : List FVal
  Is_Moving : List Bool
  Speed_Smooth : List FVal
  Grade : List FVal
  GAP_Factor : List FVal
  Speed_GAP : List FVal
  Pace_Decimal : List (Option ℚ)
  GAP_Pace_Decimal : List (Option ℚ)
  Elev_Gain_Step : List FVal
deriving DecidableEq

/-- The record appended by `_calculate_metrics` for a non-empty table. -/
def metricsRecord (df : TrackDF) : MetricsDF :=
  { time := df.time
    hr := df.hr
    alt := df.alt
    dist := df.dist
    lat := df.lat
    lon := df.lon
    elapsed := elapsedCol df
    Altitude_Smooth := altSmoothCol df
    Dist_Diff := distDiffCol df
    Time_Diff := timeDiffCol df
    Alt_Diff := altDiffCol df
    Speed_m_s := speedCol df
    Is_Moving := isMovingCol df
    Speed_Smooth := speedSmoothCol df
    Grade := gradeCol df
    GAP_Factor := gapFactorCol df
    Speed_GAP := speedGapCol df
    Pace_Decimal := paceCol df
    GAP_Pace_Decimal := gapPaceCol df
    Elev_Gain_Step := elevGainStepCol df }

/-- `_calculate_metrics` (activity_processing.py lines 62-113): `None` for an
empty table (`if track_df.empty: return None`), otherwise the table with the
derived columns appended. -/
def _calculate_metrics (df : TrackDF) : Option MetricsDF :=
  if df.time.isEmpty then none else some (metricsRecord df)

/-- `get_zone_idx` of deep_dive.py (lines 238-249): classify a heart-rate
sample into a zone index 0..4 using strict `<` against each threshold;
a null heart rate gets no zone. -/
def get_zone_idx (z1 z2 z3 z4 : ℚ) (h : Option ℚ) : Option ℕ :=
  match h with
  | none => none
  | some hv =>
    if hv < z1 then some 0
    else if hv < z2 then some 1
    else if hv < z3 then some 2
    else if hv < z4 then some 3
    else some 4

/-- One decoded FIT `record` message, with the fields the readers extract.
`none` models an absent field (`record.get(...)` returning `None`). -/
structure FitRecord where
  timestamp : Option ℚ
  heart_rate : Option ℚ
  enhanced_altitude : Option ℚ
  altitude : Option ℚ
  distance : Option ℚ
  cadence : Option ℤ
  position_lat : Option ℚ
  position_long : Option ℚ
deriving DecidableEq

/-- Python `x or y` on optional floats: `y` when `x` is `None` **or zero**
(zero is falsy), else `x`. -/
def pyOrQ (x y : Option ℚ) : Option ℚ :=
  match x with
  | some v => if v = 0 then y else some v
  | none => y

/-- Altitude selected by `_parse_fit` (file_parsing.py lines 45-49):
`enhanced_altitude if enhanced_altitude is not None else altitude`. -/
def parseFitAlt (r : FitRecord) : Option ℚ :=
  match r.enhanced_altitude with
  | some v => some v
  | none => r.altitude

/-- Altitude selected by `_parse_fit_messages` (file_parsing.py line 84):
`record.get("enhanced_altitude") or record.get("altitude")`. -/
def parseFitMessagesAlt (r : FitRecord) : Option ℚ :=
  pyOrQ r.enhanced_altitude r.altitude

/-- Altitude stored by `parse_fit_file` (import_streams.py lines 196-199):
`record.get("enhanced_altitude") or record.get("altitude")`. -/
def importStreamsAlt (r : FitRecord) : Option ℚ :=
  pyOrQ r.enhanced_altitude r.altitude

/-- Cadence produced by `_parse_fit_messages` (file_parsing.py lines 87-89):
`raw_cad * 2 if raw_cad is not None else None`. -/
def parseFitMessagesCad (c : Option ℤ) : Option ℤ :=
  match c with
  | some v => some (v * 2)
  | none => none

/-- Cadence stored by `parse_fit_file` (import_streams.py lines 214-216):
`int(record["cadence"])`, stored as-is with no doubling. -/
def importStreamsCad (c : Option ℤ) : Option ℤ :=
  match c with
  | some v => some v
  | none => none

/-- One row of the table handed to the splits calculator (the columns
`_calculate_splits` reads: Time, Distance, HR, cadence). -/
structure SRow where
  time : Option ℚ
  dist : Option ℚ
  hr : Option ℚ
  cad : Option ℚ
deriving DecidableEq

/-- One emitted split row (`KM`, `Distance`, `Pace`, `Avg HR`, `Cadence`). -/
structure Split where
  km : ℕ
  distance : ℚ
  pace : Option ℚ
  avgHR : Option ℚ
  cadence : Option ℚ
deriving DecidableEq

/-- `Series.max()`: NaN-skipping maximum, `none` when no value exists. -/
def colMax (l : List (Option ℚ)) : Option ℚ :=
  l.foldr
    (fun x acc =>
      match x, acc with
      | none, a => a
      | some v, none => some v
      | some v, some w => some (max v w))
    none

/-- `Series.min()`: NaN-skipping minimum, `none` when no value exists. -/
def colMin (l : List (Option ℚ)) : Option ℚ :=
  l.foldr
    (fun x acc =>
      match x, acc with
      | none, a => a
      | some v, none => some v
      | some v, some w => some (min v w))
    none

/-- Membership of a distance cell in the window `[s, e)`; a NaN distance
never matches (pandas comparisons with NaN are False). -/
def inWindow (d : Option ℚ) (s e : ℚ) : Bool :=
  match d with
  | none => false
  | some v => if s ≤ v ∧ v < e then true else false

/-- `split_data["Distance"].iloc[0]` of a window selection. -/
def headDist (w : List SRow) : ℚ :=
  match w with
  | [] => 0
  | r :: _ => r.dist.getD 0

/-- `split_data["Distance"].iloc[-1]` of a window selection. -/
def lastDist (w : List SRow) : ℚ :=
  match w.getLast? with
  | none => 0
  | some r => r.dist.getD 0

/-- `split_data["Time"].iloc[0]` of a window selection. -/
def headTime (w : List SRow) : Option ℚ :=
  match w with
  | [] => none
  | r :: _ => r.time

/-- `split_data["Time"].iloc[-1]` of a window selection. -/
def lastTime (w : List SRow) : Option ℚ :=
  match w.getLast? with
  | none => none
  | some r => r.time

/-- The window selection of `_calculate_splits` at window index `k`: all rows
whose distance lies in `[k*1000, (k+1)*1000)`. -/
def windowRows (rows : List SRow) (k : ℕ) : List SRow :=
  rows.filter fun r => inWindow r.dist ((k : ℚ) * 1000) (((k : ℚ) + 1) * 1000)

/-- The split's covered distance in km at window index `k`
(`(Distance.iloc[-1] - Distance.iloc[0]) / 1000`). -/
def coveredKm (rows : List SRow) (k : ℕ) : ℚ :=
  (lastDist (windowRows rows k) - headDist (windowRows rows k)) / 1000

/-- One iteration of the `while` loop of `_calculate_splits` at window index
`k`: emit a split only when the whole window `[k*1000, (k+1)*1000)` lies
below the maximum recorded distance `m` (`end_dist <= max_dist`) and the
window selection is non-empty. -/
def mkSplit (rows : List SRow) (hasCad : Bool) (m : ℚ) (k : ℕ) : Option Split :=
  if ((k : ℚ) + 1) * 1000 ≤ m then
    if (windowRows rows k).isEmpty then none
    else
      some
        { km := k + 1
          distance := coveredKm rows k
          pace := if 0 < coveredKm rows k then
                    (osub (lastTime (windowRows rows k)) (headTime (windowRows rows k))).map
                      fun e => e / coveredKm rows k / 60
                  else some 0
          avgHR := omean ((windowRows rows k).map SRow.hr)
          cadence := if hasCad then omean ((windowRows rows k).map SRow.cad) else none }
  else none

/-- `_calculate_splits` (activity_processing.py lines 116-167).  The source's
`while current_km * 1000 < max_dist` loop visits exactly the window indices
`k` with `k * 1000 < max_dist`, i.e. `k < ⌈max_dist / 1000⌉`; an all-null or
empty distance column gives a NaN maximum and the loop never runs. -/
def _calculate_splits (rows : List SRow) (hasCad : Bool) : List Split :=
  if rows.isEmpty then []
  else
    match colMax (rows.map SRow.dist) with
    | none => []
    | some m => (List.range (Int.ceil (m / 1000)).toNat).filterMap (mkSplit rows hasCad m)

/-- A two-row track whose timestamps are duplicates (identical instants) and
whose distance advances by 5 m: exercises the `time_diff = 0` rows. -/
def dupTrack : TrackDF :=
  _create_track_df [some 0, some 0] [none, none] [none, none] [some 0, some 5] [] []

/-- A two-row track moving 1 m in 10 s, so the smoothed speed at the second
row is exactly 0.1 m/s. -/
def paceTrack : TrackDF :=
  _create_track_df [some 0, some 10] [none, none] [none, none] [some 0, some 1] [] []

/-- A five-sample split-calculator input reaching 2100 m. -/
def exRows : List SRow :=
  [ { time := some 0, dist := some 0, hr := none, cad := none }
  , { time := some 100, dist := some 500, hr := none, cad := none }
  , { time := some 200, dist := some 1000, hr := none, cad := none }
  , { time := some 300, dist := some 1500, hr := none, cad := none }
  , { time := some 400, dist := some 2100, hr := none, cad := none } ]

/-- Strictly ascending chain test on a list of rationals. -/
def strictChainQ : List ℚ → Bool
  | [] => true
  | [_] => true
  | a :: b :: r => (if a < b then true else false) && strictChainQ (b :: r)

/-- Strictly ascending chain test on a list of optional rationals; any null
entry (which can never compare greater) refutes it. -/
def strictChainO : List (Option ℚ) → Bool
  | [] => true
  | [_] => true
  | a :: b :: r =>
    (match a, b with
     | some x, some y => if x < y then true else false
     | _, _ => false) &&
    strictChainO (b :: r)

/-- Forward-fill monotonicity of one column: once an entry is non-null, every
later entry is non-null too. -/
def nonNullStable (l : List (Option ℚ)) : Prop :=
  ∀ i j, i ≤ j → j < l.length → (l.getD i none).isSome = true → (l.getD j none).isSome = true

/-- A FIT record carrying `enhanced_altitude = 0` alongside a legacy
`altitude = 5`. -/
def zeroAltRecord : FitRecord :=
  { timestamp := some 0, heart_rate := none, enhanced_altitude := some 0,
    altitude := some 5, distance := some 1, cadence := some 90,
    position_lat := none, position_long := none }

/-! ## Helper lemmas -/

/-- `zipWith` indexed lookup. -/
theorem zipWith_get?_eq {α β γ : Type} (f : α → β → γ) :
    ∀ (l1 : List α) (l2 : List β) (i : ℕ) (x : α) (y : β),
      l1.get? i = some x → l2.get? i = some y →
      (List.zipWith f l1 l2).get? i = some (f x y)
  | [], _, i, x, _, hx, _ => by simp at hx
  | _ :: _, [], i, _, y, _, hy => by simp at hy
  | a :: t1, b :: t2, 0, x, y, hx, hy => by
    simp only [List.get?] at hx hy
    cases hx
    cases hy
    rfl
  | a :: t1, b :: t2, i + 1, x, y, hx, hy => by
    simpa using zipWith_get?_eq f t1 t2 i x y hx hy

/-- `_calculate_metrics` succeeds exactly on tables with at least one row. -/
theorem metrics_some (df : TrackDF) (hne : df.time ≠ []) :
    _calculate_metrics df = some (metricsRecord df) := by
  rw [_calculate_metrics, if_neg]
  simpa using hne

/-! ## C1: heart-rate zone boundaries -/

/-- C1 counterexample: with thresholds (145,164,174,188) the deep-dive
classifier `get_zone_idx` does **not** behave as the claim states: heart rate
145 lands in zone index 1 (Zone 2), not zone index 0 (Zone 1). -/
theorem c1_counterexample :
    ¬ (get_zone_idx 145 164 174 188 (some 145) = some 0 ∧
       get_zone_idx 145 164 174 188 (some 146) = some 1 ∧
       get_zone_idx 145 164 174 188 (some 164) = some 1 ∧
       get_zone_idx 145 164 174 188 (some 165) = some 2 ∧
       get_zone_idx 145 164 174 188 (some 188) = some 3 ∧
       get_zone_idx 145 164 174 188 (some 189) = some 4) := by
  intro h
  have h1 := h.1
  norm_num [get_zone_idx] at h1

/-- C1 (amended): `get_zone_idx` is exclusive at each boundary: with ascending
thresholds, a heart rate `h` is Zone 1 iff `h < z1`, Zone 2 iff `z1 ≤ h < z2`,
Zone 3 iff `z2 ≤ h < z3`, Zone 4 iff `z3 ≤ h < z4`, and Zone 5 iff `z4 ≤ h`;
hence with thresholds (145,164,174,188): 145 ↦ Zone 2, 146 ↦ Zone 2,
164 ↦ Zone 3, 165 ↦ Zone 3, 188 ↦ Zone 5, 189 ↦ Zone 5. -/
theorem c1_zone_strict (z1 z2 z3 z4 : ℚ) (h12 : z1 < z2) (h23 : z2 < z3)
    (h34 : z3 < z4) (h : ℚ) :
    (get_zone_idx z1 z2 z3 z4 (some h) = some 0 ↔ h < z1) ∧
    (get_zone_idx z1 z2 z3 z4 (some h) = some 1 ↔ z1 ≤ h ∧ h < z2) ∧
    (get_zone_idx z1 z2 z3 z4 (some h) = some 2 ↔ z2 ≤ h ∧ h < z3) ∧
    (get_zone_idx z1 z2 z3 z4 (some h) = some 3 ↔ z3 ≤ h ∧ h < z4) ∧
    (get_zone_idx z1 z2 z3 z4 (some h) = some 4 ↔ z4 ≤ h) := by
  have hx0 : get_zone_idx z1 z2 z3 z4 (some h) = some 0 ↔ h < z1 := by
    simp only [get_zone_idx]
    split_ifs with h1 h2 h3 h4 <;> simp <;> first
      | linarith
      | (intros; linarith)
      | (exact ⟨by linarith, by linarith⟩)
  have hx1 : get_zone_idx z1 z2 z3 z4 (some h) = some 1 ↔ z1 ≤ h ∧ h < z2 := by
    simp only [get_zone_idx]
    split_ifs with h1 h2 h3 h4 <;> simp <;> first
      | linarith
      | (intros; linarith)
      | (exact ⟨by linarith, by linarith⟩)
  have hx2 : get_zone_idx z1 z2 z3 z4 (some h) = some 2 ↔ z2 ≤ h ∧ h < z3 := by
    simp only [get_zone_idx]
    split_ifs with h1 h2 h3 h4 <;> simp <;> first
      | linarith
      | (intros; linarith)
      | (exact ⟨by linarith, by linarith⟩)
  have hx3 : get_zone_idx z1 z2 z3 z4 (some h) = some 3 ↔ z3 ≤ h ∧ h < z4 := by
    simp only [get_zone_idx]
    split_ifs with h1 h2 h3 h4 <;> simp <;> first
      | linarith
      | (intros; linarith)
      | (exact ⟨by linarith, by linarith⟩)
  have hx4 : get_zone_idx z1 z2 z3 z4 (some h) = some 4 ↔ z4 ≤ h := by
    simp only [get_zone_idx]
    split_ifs with h1 h2 h3 h4 <;> simp <;> first
      | linarith
      | (intros; linarith)
      | (exact ⟨by linarith, by linarith⟩)
  exact ⟨hx0, hx1, hx2, hx3, hx4⟩

/-- C1 witness: heart rate 146 with thresholds (145,164,174,188) is classified
into zone index 1. -/
theorem c1_zone_strict_witness :
    get_zone_idx 145 164 174 188 (some 146) = some 1 :=
  ((c1_zone_strict 145 164 174 188 (by norm_num) (by norm_num) (by norm_num)
      146).2.1).mpr (by norm_num)

/-! ## C2: empty input behaviour -/

/-- C2 counterexample: `_calculate_metrics` applied to the empty table does
**not** return a table at all — it returns `None`, so the claim that the
metrics engine returns the empty table unchanged is false. -/
theorem c2_counterexample : ¬ ∃ M, _calculate_metrics TrackDF.empty = some M := by
  simp [_calculate_metrics, TrackDF.empty]

/-- C2 (amended): for an empty timestamp array the normalizer returns an empty
table, and the metrics engine applied to the empty table returns `None` (the
"no data" sentinel) rather than the table unchanged; no exception arises
(both functions are total). -/
theorem c2_empty_behavior :
    (∀ hrs alts dists lats lons,
      _create_track_df [] hrs alts dists lats lons = TrackDF.empty) ∧
    _calculate_metrics TrackDF.empty = none := by
  constructor
  · intro hrs alts dists lats lons
    simp [_create_track_df]
  · simp [_calculate_metrics, TrackDF.empty]

/-! ## C6: enhanced-altitude preference -/

/-- C6 counterexample: on a record with `enhanced_altitude = 0` and legacy
`altitude = 5`, both `_parse_fit_messages` and `parse_fit_file` expose the
legacy value 5 — the enhanced value 0 is **not** the one exposed, because
Python's `or` treats 0 as falsy. -/
theorem c6_counterexample :
    zeroAltRecord.enhanced_altitude = some 0 ∧
    zeroAltRecord.altitude = some 5 ∧
    parseFitMessagesAlt zeroAltRecord ≠ some 0 ∧
    importStreamsAlt zeroAltRecord ≠ some 0 := by
  refine ⟨rfl, rfl, ?_, ?_⟩ <;>
    norm_num [parseFitMessagesAlt, importStreamsAlt, pyOrQ, zeroAltRecord]

/-- C6 (amended): `_parse_fit` prefers the enhanced altitude whenever it is
present, including zero; `_parse_fit_messages` and `parse_fit_file` prefer it
only when it is present **and non-zero**, falling back to the legacy field
when the enhanced value is absent or exactly zero. -/
theorem c6_altitude_preference :
    (∀ (r : FitRecord) (v : ℚ), r.enhanced_altitude = some v → parseFitAlt r = some v) ∧
    (∀ (r : FitRecord) (v : ℚ), r.enhanced_altitude = some v → v ≠ 0 →
      parseFitMessagesAlt r = some v ∧ importStreamsAlt r = some v) ∧
    (∀ r : FitRecord, r.enhanced_altitude = some 0 →
      parseFitMessagesAlt r = r.altitude ∧ importStreamsAlt r = r.altitude) ∧
    (∀ r : FitRecord, r.enhanced_altitude = none →
      parseFitAlt r = r.altitude ∧ parseFitMessagesAlt r = r.altitude ∧
      importStreamsAlt r = r.altitude) := by
  refine ⟨?_, ?_, ?_, ?_⟩
  · intro r v hv
    simp [parseFitAlt, hv]
  · intro r v hv hv0
    simp [parseFitMessagesAlt, importStreamsAlt, pyOrQ, hv, hv0]
  · intro r hv
    simp [parseFitMessagesAlt, importStreamsAlt, pyOrQ, hv]
  · intro r hv
    simp [parseFitAlt, parseFitMessagesAlt, importStreamsAlt, pyOrQ, hv]

/-- C6 witness: on the concrete record with `enhanced_altitude = 0`, both
truthiness-based extractors fall back to the legacy altitude column. -/
theorem c6_altitude_preference_witness :
    parseFitMessagesAlt zeroAltRecord = zeroAltRecord.altitude ∧
    importStreamsAlt zeroAltRecord = zeroAltRecord.altitude :=
  c6_altitude_preference.2.2.1 zeroAltRecord rfl

/-! ## C7: FIT cadence doubling -/

/-- C7 counterexample: a decoded FIT cadence of 90 is doubled to 180 by the
file-parsing path, but the stream importer `parse_fit_file` stores the raw
value 90 — so the claim that the pipeline always stores `2 × c` is false. -/
theorem c7_counterexample :
    parseFitMessagesCad (some 90) = some 180 ∧
    importStreamsCad (some 90) = some 90 ∧
    importStreamsCad (some 90) ≠ some 180 := by
  refine ⟨rfl, rfl, ?_⟩
  simp [importStreamsCad]

/-- C7 (amended): the display/parsing path `_parse_fit_messages` doubles every
non-null FIT cadence (90 becomes 180) and keeps null as null, while the
stream-import path `parse_fit_file` stores the raw single-leg value
undoubled. -/
theorem c7_cadence :
    (∀ c : ℤ, parseFitMessagesCad (some c) = some (c * 2)) ∧
    parseFitMessagesCad none = none ∧
    (∀ c : ℤ, importStreamsCad (some c) = some c) ∧
    importStreamsCad none = none :=
  ⟨fun _ => rfl, rfl, fun _ => rfl, rfl⟩

/-! ## Concrete pipeline evaluations -/

/-- The duplicate-timestamp track normalizes to two retained rows. -/
theorem dupTrack_eq :
    dupTrack =
      { time := [some 0, some 0], hr := [none, none], alt := [none, none],
        dist := [some 0, some 5], lat := [none, none], lon := [none, none] } := by
  norm_num [dupTrack, _create_track_df, adjust, ffillCol, ffillFrom, maskKeep,
    to_degrees, List.replicate, List.filterMap_cons]

/-- Elapsed seconds of the duplicate-timestamp track: `[0, 0]`. -/
theorem dupTrack_elapsed : elapsedCol dupTrack = [some 0, some 0] := by
  rw [dupTrack_eq]
  norm_num [elapsedCol, osub]

/-- Time differences of the duplicate-timestamp track: `[NaN, 0]`. -/
theorem dupTrack_timeDiff : timeDiffCol dupTrack = [FVal.nan, FVal.fin 0] := by
  rw [timeDiffCol, dupTrack_elapsed]
  norm_num [diffF, toF, FVal.sub]

/-- Distance differences of the duplicate-timestamp track: `[NaN, 5]`. -/
theorem dupTrack_distDiff : distDiffCol dupTrack = [FVal.nan, FVal.fin 5] := by
  rw [distDiffCol, dupTrack_eq]
  norm_num [diffF, toF, FVal.sub]

/-- Speed of the duplicate-timestamp track: the second row divides the 5 m
distance step by the zero time step and yields `+inf`. -/
theorem dupTrack_speed : speedCol dupTrack = [FVal.nan, FVal.inf true] := by
  rw [speedCol, dupTrack_timeDiff, dupTrack_distDiff]
  norm_num [FVal.div]

/-- Moving flags of the duplicate-timestamp track: the infinite-speed row
counts as moving. -/
theorem dupTrack_isMoving : isMovingCol dupTrack = [false, true] := by
  rw [isMovingCol, dupTrack_speed]
  norm_num [FVal.gtQ]

/-- The 1-meter-in-10-seconds track normalizes to two retained rows. -/
theorem paceTrack_eq :
    paceTrack =
      { time := [some 0, some 10], hr := [none, none], alt := [none, none],
        dist := [some 0, some 1], lat := [none, none], lon := [none, none] } := by
  norm_num [paceTrack, _create_track_df, adjust, ffillCol, ffillFrom, maskKeep,
    to_degrees, List.replicate, List.filterMap_cons]

/-- Speed of the pace track: `[NaN, 1/10]`. -/
theorem paceTrack_speed : speedCol paceTrack = [FVal.nan, FVal.fin (1 / 10)] := by
  rw [speedCol, timeDiffCol, distDiffCol,
    show elapsedCol paceTrack = [some 0, some 10] by
      rw [paceTrack_eq]; norm_num [elapsedCol, osub],
    show paceTrack.dist = [some 0, some 1] by rw [paceTrack_eq]]
  norm_num [diffF, toF, FVal.sub, FVal.div]

/-- Smoothed speed of the pace track: the second row's trailing window mean is
exactly 0.1 m/s. -/
theorem paceTrack_speedSmooth :
    speedSmoothCol paceTrack = [FVal.nan, FVal.fin (1 / 10)] := by
  rw [speedSmoothCol, paceTrack_speed]
  norm_num [rollingMeanTrailing, List.range, List.range.loop, fmean,
    FVal.isNan, FVal.add, FVal.div]

/-- Pace of the pace track: at smoothed speed exactly 0.1 the pace is the
finite value `(1000 / 0.1) / 60 = 500/3`, not null. -/
theorem paceTrack_pace : paceCol paceTrack = [none, some (500 / 3)] := by
  rw [paceCol, paceTrack_speedSmooth]
  norm_num [get_pace]

/-! ## C3: unguarded speed division -/

/-- C3 counterexample: the claim that `speed_m_s` is null on every row with
zero `time_diff` (and never infinite) is false: in the duplicate-timestamp
track, row 1 has `time_diff = 0` and `dist_diff = 5`, and `speed_m_s` there is
`+inf`, not null — the division `Dist_Diff / Time_Diff` carries no guard. -/
theorem c3_counterexample :
    ¬ (∀ M, _calculate_metrics dupTrack = some M →
        ∀ i, M.Time_Diff.get? i = some (FVal.fin 0) →
          M.Speed_m_s.get? i = some FVal.nan) := by
  intro hcl
  have hm := metrics_some dupTrack (by rw [dupTrack_eq]; simp)
  have h := hcl _ hm 1
    (by show (timeDiffCol dupTrack).get? 1 = _; rw [dupTrack_timeDiff]; rfl)
  rw [show (metricsRecord dupTrack).Speed_m_s = speedCol dupTrack from rfl,
    dupTrack_speed] at h
  simp at h

/-- C3 (amended): the metrics engine computes `speed_m_s` as the bare IEEE
division `dist_diff / time_diff` with no explicit guard: on a row with
`time_diff = 0` the result is NaN (null) only when `dist_diff = 0`, and is
`±inf` (matching the sign of `dist_diff`) when `dist_diff ≠ 0`; the operation
is total, so no exception is ever raised. -/
theorem c3_speed_division (df : TrackDF) (i : ℕ) (d : ℚ)
    (hne : df.time ≠ [])
    (ht : (timeDiffCol df).get? i = some (FVal.fin 0))
    (hd : (distDiffCol df).get? i = some (FVal.fin d)) :
    (_calculate_metrics df).map MetricsDF.Speed_m_s = some (speedCol df) ∧
    (speedCol df).get? i =
      some (if d = 0 then FVal.nan
            else if 0 < d then FVal.inf true else FVal.inf false) := by
  refine ⟨by rw [metrics_some df hne]; rfl, ?_⟩
  have h := zipWith_get?_eq FVal.div _ _ i _ _ hd ht
  rw [speedCol, h]
  simp [FVal.div]

/-- C3 witness: on the duplicate-timestamp track at row 1 (`time_diff = 0`,
`dist_diff = 5`) the engine's speed is positive infinity. -/
theorem c3_witness :
    (_calculate_metrics dupTrack).map MetricsDF.Speed_m_s = some (speedCol dupTrack) ∧
    (speedCol dupTrack).get? 1 =
      some (if (5 : ℚ) = 0 then FVal.nan
            else if (0 : ℚ) < 5 then FVal.inf true else FVal.inf false) :=
  c3_speed_division dupTrack 1 5
    (by rw [dupTrack_eq]; simp)
    (by rw [dupTrack_timeDiff]; rfl)
    (by rw [dupTrack_distDiff]; rfl)

/-! ## C10: Is_Moving on undefined speeds -/

/-- C10 counterexample: the claim that every row with `time_diff = 0` is
classified as not moving is false: in the duplicate-timestamp track, row 1
has `time_diff = 0` but `Is_Moving` is `true` there (its speed is `+inf` and
`inf > 0.5` holds). -/
theorem c10_counterexample :
    ¬ (∀ M, _calculate_metrics dupTrack = some M →
        ∀ i, M.Time_Diff.get? i = some (FVal.fin 0) →
          M.Is_Moving.get? i = some false) := by
  intro hcl
  have hm := metrics_some dupTrack (by rw [dupTrack_eq]; simp)
  have h := hcl _ hm 1
    (by show (timeDiffCol dupTrack).get? 1 = _; rw [dupTrack_timeDiff]; rfl)
  rw [show (metricsRecord dupTrack).Is_Moving = isMovingCol dupTrack from rfl,
    dupTrack_isMoving] at h
  simp at h

/-- C10 (amended): `Is_Moving = Speed_m_s > 0.5` is boolean-valued at every
row (the column has type `List Bool`); a row whose speed is NaN — the first
row, or a row with both `time_diff = 0` and `dist_diff = 0` — is classified
as not moving (`false`, never null), but a row with `time_diff = 0` and
`dist_diff > 0` has speed `+inf` and is classified as moving (`true`). -/
theorem c10_is_moving (df : TrackDF) (hne : df.time ≠ []) :
    (_calculate_metrics df).map MetricsDF.Is_Moving = some (isMovingCol df) ∧
    (∀ i, (speedCol df).get? i = some FVal.nan →
      (isMovingCol df).get? i = some false) ∧
    (∀ i d, (timeDiffCol df).get? i = some (FVal.fin 0) →
      (distDiffCol df).get? i = some (FVal.fin d) → 0 < d →
      (isMovingCol df).get? i = some true) := by
  refine ⟨by rw [metrics_some df hne]; rfl, ?_, ?_⟩
  · intro i hi
    rw [isMovingCol, List.get?_map, hi]
    rfl
  · intro i d ht hd hpos
    have h := zipWith_get?_eq FVal.div _ _ i _ _ hd ht
    rw [isMovingCol, List.get?_map, speedCol, h]
    simp [FVal.div, FVal.gtQ, hpos, hpos.ne']

/-- C10 witness: on the duplicate-timestamp track, row 1 (`time_diff = 0`,
`dist_diff = 5 > 0`) is classified as moving. -/
theorem c10_witness : (isMovingCol dupTrack).get? 1 = some true :=
  (c10_is_moving dupTrack (by rw [dupTrack_eq]; simp)).2.2 1 5
    (by rw [dupTrack_timeDiff]; rfl)
    (by rw [dupTrack_distDiff]; rfl)
    (by norm_num)

/-! ## C4: pace floor -/

/-- C4 counterexample: the claim that `pace_decimal` is null whenever the
smoothed speed is `≤ 0.1` is false: on the pace track, row 1 has smoothed
speed exactly `0.1` and `pace_decimal = 500/3` there (the source guard is the
strict `speed_ms < 0.1`). -/
theorem c4_counterexample :
    ¬ (∀ M, _calculate_metrics paceTrack = some M →
        ∀ i s, M.Speed_Smooth.get? i = some (FVal.fin s) → s ≤ 1 / 10 →
          M.Pace_Decimal.get? i = some none) := by
  intro hcl
  have hm := metrics_some paceTrack (by rw [paceTrack_eq]; simp)
  have h := hcl _ hm 1 (1 / 10)
    (by show (speedSmoothCol paceTrack).get? 1 = _; rw [paceTrack_speedSmooth]; rfl)
    le_rfl
  rw [show (metricsRecord paceTrack).Pace_Decimal = paceCol paceTrack from rfl,
    paceTrack_pace] at h
  simp at h

/-- C4 (amended): on every row, `pace_decimal` is null exactly when the
smoothed speed is NaN or **strictly below** 0.1 m/s, and equals
`(1000 / speed) / 60` whenever the smoothed speed is a finite value
`≥ 0.1` (so at exactly 0.1 the pace is defined); the same rule applies to the
grade-adjusted pace computed from `speed_gap`. -/
theorem c4_pace_floor (df : TrackDF) (hne : df.time ≠ []) :
    (_calculate_metrics df).map MetricsDF.Pace_Decimal = some (paceCol df) ∧
    (_calculate_metrics df).map MetricsDF.GAP_Pace_Decimal = some (gapPaceCol df) ∧
    (∀ i s, (speedSmoothCol df).get? i = some (FVal.fin s) →
      ((s < 1 / 10 → (paceCol df).get? i = some none) ∧
       (1 / 10 ≤ s → (paceCol df).get? i = some (some (1000 / s / 60))))) ∧
    (∀ i, (speedSmoothCol df).get? i = some FVal.nan →
      (paceCol df).get? i = some none) ∧
    (∀ i s, (speedGapCol df).get? i = some (FVal.fin s) →
      ((s < 1 / 10 → (gapPaceCol df).get? i = some none) ∧
       (1 / 10 ≤ s → (gapPaceCol df).get? i = some (some (1000 / s / 60))))) ∧
    (∀ i, (speedGapCol df).get? i = some FVal.nan →
      (gapPaceCol df).get? i = some none) := by
  refine ⟨by rw [metrics_some df hne]; rfl, by rw [metrics_some df hne]; rfl,
    ?_, ?_, ?_, ?_⟩
  · intro i s hs
    constructor <;> intro hcmp
    · rw [paceCol, List.get?_map, hs]
      show some (get_pace (FVal.fin s)) = some none
      rw [show get_pace (FVal.fin s)
            = if s < 1 / 10 then none else some (1000 / s / 60) from rfl,
        if_pos hcmp]
    · rw [paceCol, List.get?_map, hs]
      show some (get_pace (FVal.fin s)) = some (some (1000 / s / 60))
      rw [show get_pace (FVal.fin s)
            = if s < 1 / 10 then none else some (1000 / s / 60) from rfl,
        if_neg (not_lt.mpr hcmp)]
  · intro i hi
    rw [paceCol, List.get?_map, hi]
    rfl
  · intro i s hs
    constructor <;> intro hcmp
    · rw [gapPaceCol, List.get?_map, hs]
      show some (get_pace (FVal.fin s)) = some none
      rw [show get_pace (FVal.fin s)
            = if s < 1 / 10 then none else some (1000 / s / 60) from rfl,
        if_pos hcmp]
    · rw [gapPaceCol, List.get?_map, hs]
      show some (get_pace (FVal.fin s)) = some (some (1000 / s / 60))
      rw [show get_pace (FVal.fin s)
            = if s < 1 / 10 then none else some (1000 / s / 60) from rfl,
        if_neg (not_lt.mpr hcmp)]
  · intro i hi
    rw [gapPaceCol, List.get?_map, hi]
    rfl

/-- C4 witness: on the pace track, the smoothed speed at row 1 is exactly
0.1 m/s and the engine's pace there is `(1000 / (1/10)) / 60`. -/
theorem c4_witness : (paceCol paceTrack).get? 1 = some (some (1000 / (1 / 10) / 60)) :=
  ((c4_pace_floor paceTrack (by rw [paceTrack_eq]; simp)).2.2.1 1 (1 / 10)
    (by rw [paceTrack_speedSmooth]; rfl)).2 le_rfl

/-! ## C5: elapsed-time anchoring -/

/-- Filtering on the own-is-some mask is `reduceOption`. -/
theorem maskKeep_isSome_self (l : List (Option ℚ)) :
    maskKeep (l.map Option.isSome) l = l.reduceOption.map some := by
  induction l with
  | nil => rfl
  | cons x t ih =>
    cases x <;>
      simp only [List.map_cons, maskKeep, List.zip_cons_cons, List.filterMap_cons,
        Option.isSome_none, Option.isSome_some, if_true, if_false,
        List.reduceOption_cons_of_some, List.reduceOption_cons_of_none] <;>
      simpa [maskKeep] using ih

/-- The time column of a normalized track is the list of its parseable
timestamps. -/
theorem create_time (ts hrs alts dists lats lons : List (Option ℚ)) (hne : ts ≠ []) :
    (_create_track_df ts hrs alts dists lats lons).time = ts.reduceOption.map some := by
  rw [_create_track_df, if_neg (by simpa using hne)]
  exact maskKeep_isSome_self ts

/-- Shape of the elapsed column when the time column is a list of values. -/
theorem elapsedCol_map_some (u : ℚ) (us : List ℚ) (df : TrackDF)
    (htime : df.time = (u :: us).map some) :
    elapsedCol df = ((u :: us).map fun t => t - u).map some := by
  rw [elapsedCol, htime]
  simp [osub, List.map_map, Function.comp]

/-- Mapping `some` preserves the strict-chain test. -/
theorem strictChainO_map_some : ∀ l : List ℚ, strictChainO (l.map some) = strictChainQ l
  | [] => rfl
  | [_] => rfl
  | a :: b :: r => by
    simp only [List.map_cons, strictChainO, strictChainQ]
    have ih := strictChainO_map_some (b :: r)
    simp only [List.map_cons] at ih
    rw [ih]

/-- Subtracting a constant preserves the strict-chain test. -/
theorem strictChainQ_sub (c : ℚ) : ∀ l : List ℚ,
    strictChainQ (l.map fun t => t - c) = strictChainQ l
  | [] => rfl
  | [_] => rfl
  | a :: b :: r => by
    simp only [List.map_cons, strictChainQ]
    have ih := strictChainQ_sub c (b :: r)
    simp only [List.map_cons] at ih
    rw [ih]
    congr 1
    simp [sub_lt_sub_iff_right]

/-- C5 counterexample: the duplicate-timestamp track is a non-empty normalized
track on which the engine's elapsed column is `[0, 0]` — not strictly
increasing, because the pipeline never drops or resolves duplicate
timestamps. -/
theorem c5_counterexample :
    ¬ (∀ M, _calculate_metrics dupTrack = some M →
        M.elapsed.head? = some (some 0) ∧ strictChainO M.elapsed = true) := by
  intro hcl
  have hm := metrics_some dupTrack (by rw [dupTrack_eq]; simp)
  have h := (hcl _ hm).2
  rw [show (metricsRecord dupTrack).elapsed = elapsedCol dupTrack from rfl,
    dupTrack_elapsed] at h
  norm_num [strictChainO] at h

/-- C5 (amended): for every non-empty normalized track, the first retained
TrackPoint has `elapsed_seconds = 0`; rows with null/unparseable time are
dropped, but duplicate or out-of-order timestamps are **not** dropped or
resolved, so `elapsed_seconds` is strictly increasing exactly when the
retained (parseable) input timestamps are; under that hypothesis the whole
claim holds. -/
theorem c5_elapsed_anchoring (ts hrs alts dists lats lons : List (Option ℚ))
    (hne : ts.reduceOption ≠ [])
    (hinc : strictChainQ ts.reduceOption = true) :
    ∃ M, _calculate_metrics (_create_track_df ts hrs alts dists lats lons) = some M ∧
      M.elapsed.head? = some (some 0) ∧ strictChainO M.elapsed = true := by
  have hts : ts ≠ [] := by
    intro h
    apply hne
    rw [h]
    rfl
  have htime := create_time ts hrs alts dists lats lons hts
  obtain ⟨u, us, huv⟩ : ∃ u us, ts.reduceOption = u :: us := by
    cases h : ts.reduceOption with
    | nil => exact absurd h hne
    | cons u us => exact ⟨u, us, rfl⟩
  have hne2 : (_create_track_df ts hrs alts dists lats lons).time ≠ [] := by
    rw [htime, huv]
    simp
  have he : (metricsRecord (_create_track_df ts hrs alts dists lats lons)).elapsed
      = ((u :: us).map fun t => t - u).map some := by
    show elapsedCol _ = _
    exact elapsedCol_map_some u us _ (by rw [htime, huv])
  refine ⟨metricsRecord _, metrics_some _ hne2, ?_, ?_⟩
  · rw [he]
    simp
  · rw [he, strictChainO_map_some, strictChainQ_sub]
    rw [huv] at hinc
    exact hinc

/-- C5 witness: a track with strictly increasing timestamps 0, 10 anchored at
elapsed 0 and strictly increasing elapsed values. -/
theorem c5_witness :
    ∃ M, _calculate_metrics (_create_track_df [some 0, some 10] [] [] [] [] []) = some M ∧
      M.elapsed.head? = some (some 0) ∧ strictChainO M.elapsed = true :=
  c5_elapsed_anchoring [some 0, some 10] [] [] [] [] []
    (by simp [List.reduceOption_cons_of_some])
    (by norm_num [List.reduceOption_cons_of_some, strictChainQ])

/-! ## C8: forward-fill monotonicity -/

/-- Forward fill from a non-null accumulator produces only non-null cells. -/
theorem ffillFrom_all_some (acc : Option ℚ) (hacc : acc.isSome = true) :
    ∀ l : List (Option ℚ), ∀ x ∈ ffillFrom acc l, x.isSome = true
  | [], x, hx => by simp [ffillFrom] at hx
  | y :: t, x, hx => by
    cases y with
    | some v =>
      simp only [ffillFrom] at hx
      rcases List.mem_cons.mp hx with h | h
      · rw [h]
        rfl
      · exact ffillFrom_all_some (some v) rfl t x h
    | none =>
      simp only [ffillFrom] at hx
      rcases List.mem_cons.mp hx with h | h
      · rw [h]
        exact hacc
      · exact ffillFrom_all_some acc hacc t x h

/-- A forward-filled column splits into a null block followed by a non-null
block. -/
theorem ffillCol_decomp (l : List (Option ℚ)) :
    ∃ a b, ffillCol l = a ++ b ∧ (∀ x ∈ a, x = none) ∧ (∀ x ∈ b, x.isSome = true) := by
  induction l with
  | nil => exact ⟨[], [], rfl, by simp, by simp⟩
  | cons x t ih =>
    cases x with
    | some v =>
      refine ⟨[], some v :: ffillFrom (some v) t, rfl, by simp, ?_⟩
      intro x hx
      rcases List.mem_cons.mp hx with h | h
      · rw [h]
        rfl
      · exact ffillFrom_all_some (some v) rfl t x h
    | none =>
      obtain ⟨a, b, hab, ha, hb⟩ := ih
      refine ⟨none :: a, b, ?_, ?_, hb⟩
      · show none :: ffillFrom none t = none :: a ++ b
        rw [show ffillFrom none t = ffillCol t from rfl, hab]
        rfl
      · intro x hx
        rcases List.mem_cons.mp hx with h | h
        · exact h
        · exact ha x h

/-- `maskKeep` at a kept row. -/
theorem maskKeep_cons_true (ms : List Bool) (x : Option ℚ) (xs : List (Option ℚ)) :
    maskKeep (true :: ms) (x :: xs) = x :: maskKeep ms xs := by
  simp [maskKeep, List.zip_cons_cons, List.filterMap_cons]

/-- `maskKeep` at a dropped row. -/
theorem maskKeep_cons_false (ms : List Bool) (x : Option ℚ) (xs : List (Option ℚ)) :
    maskKeep (false :: ms) (x :: xs) = maskKeep ms xs := by
  simp [maskKeep, List.zip_cons_cons, List.filterMap_cons]

/-- `maskKeep` distributes over an append of the column. -/
theorem maskKeep_append :
    ∀ (a : List (Option ℚ)) (mask : List Bool) (b : List (Option ℚ)),
      maskKeep mask (a ++ b) =
        maskKeep (mask.take a.length) a ++ maskKeep (mask.drop a.length) b
  | [], mask, b => by simp [maskKeep]
  | x :: t, [], b => by simp [maskKeep]
  | x :: t, m :: ms, b => by
    cases m with
    | false =>
      simp only [List.cons_append, maskKeep_cons_false, List.length_cons,
        List.take_succ_cons, List.drop_succ_cons]
      exact maskKeep_append t ms b
    | true =>
      simp only [List.cons_append, maskKeep_cons_true, List.length_cons,
        List.take_succ_cons, List.drop_succ_cons]
      rw [maskKeep_append t ms b]

/-- Row filtering only keeps cells of the original column. -/
theorem mem_maskKeep :
    ∀ (mask : List Bool) (col : List (Option ℚ)) (x : Option ℚ),
      x ∈ maskKeep mask col → x ∈ col
  | [], col, x, hx => by simp [maskKeep] at hx
  | m :: ms, [], x, hx => by simp [maskKeep] at hx
  | m :: ms, c :: cs, x, hx => by
    cases m with
    | false =>
      rw [maskKeep_cons_false] at hx
      exact List.mem_cons_of_mem _ (mem_maskKeep ms cs x hx)
    | true =>
      rw [maskKeep_cons_true] at hx
      rcases List.mem_cons.mp hx with h | h
      · rw [h]
        exact List.mem_cons_self _ _
      · exact List.mem_cons_of_mem _ (mem_maskKeep ms cs x h)

/-- A column made of a null block followed by a non-null block satisfies
forward-fill monotonicity. -/
theorem nonNullStable_of_decomp (l a b : List (Option ℚ)) (hab : l = a ++ b)
    (ha : ∀ x ∈ a, x = none) (hb : ∀ x ∈ b, x.isSome = true) : nonNullStable l := by
  intro i j hij hj hi
  have hia : a.length ≤ i := by
    by_contra hlt
    push_neg at hlt
    have hgi : l.getD i none = a.getD i none := by
      rw [hab]
      exact List.getD_append _ _ _ _ hlt
    have hmem : a.get? i = some (a.get ⟨i, hlt⟩) := List.get?_eq_get hlt
    have : a.getD i none = a.get ⟨i, hlt⟩ := by
      rw [List.getD_eq_get?, hmem]
      rfl
    rw [hgi, this, ha _ (a.get_mem i hlt)] at hi
    simp at hi
  have hja : a.length ≤ j := le_trans hia hij
  have hjb : j - a.length < b.length := by
    rw [hab, List.length_append] at hj
    omega
  have hgj : l.getD j none = b.getD (j - a.length) none := by
    rw [hab]
    exact List.getD_append_right _ _ _ _ hja
  have hmem : b.get? (j - a.length) = some (b.get ⟨j - a.length, hjb⟩) :=
    List.get?_eq_get hjb
  have hv : b.getD (j - a.length) none = b.get ⟨j - a.length, hjb⟩ := by
    rw [List.getD_eq_get?, hmem]
    rfl
  rw [hgj, hv]
  exact hb _ (b.get_mem _ hjb)

/-- A row-filtered forward-filled column satisfies forward-fill
monotonicity. -/
theorem nonNullStable_maskKeep_ffill (mask : List Bool) (l : List (Option ℚ)) :
    nonNullStable (maskKeep mask (ffillCol l)) := by
  obtain ⟨a, b, hab, ha, hb⟩ := ffillCol_decomp l
  refine nonNullStable_of_decomp _ (maskKeep (mask.take a.length) a)
    (maskKeep (mask.drop a.length) b) ?_ ?_ ?_
  · rw [hab, maskKeep_append]
  · intro x hx
    exact ha x (mem_maskKeep _ _ _ hx)
  · intro x hx
    exact hb x (mem_maskKeep _ _ _ hx)

/-- C8: in the normalizer's output, once a distance, altitude or heart-rate
cell is non-null, every later cell of that column is non-null too (the
columns are forward-filled before the time-based row drop, and row filtering
preserves the property). -/
theorem c8_ffill_monotone (timestamps hrs alts dists lats lons : List (Option ℚ)) :
    nonNullStable (_create_track_df timestamps hrs alts dists lats lons).dist ∧
    nonNullStable (_create_track_df timestamps hrs alts dists lats lons).alt ∧
    nonNullStable (_create_track_df timestamps hrs alts dists lats lons).hr := by
  by_cases hts : timestamps.isEmpty
  · rw [_create_track_df, if_pos hts]
    refine ⟨?_, ?_, ?_⟩ <;> intro i j hij hj hi <;> simp [TrackDF.empty] at hj
  · rw [_create_track_df, if_neg hts]
    exact ⟨nonNullStable_maskKeep_ffill _ _, nonNullStable_maskKeep_ffill _ _,
      nonNullStable_maskKeep_ffill _ _⟩

/-- The distance column of the C8 example input after normalization. -/
theorem c8ExampleDist :
    (_create_track_df [some 0, some 1] [] [] [some 3, none] [] []).dist
      = [some 3, some 3] := by
  norm_num [_create_track_df, adjust, ffillCol, ffillFrom, maskKeep,
    List.replicate, List.filterMap_cons]

/-- C8 witness: distance became non-null at row 0 of the example track, so it
is still non-null at row 1 (where the raw input was null). -/
theorem c8_witness :
    (((_create_track_df [some 0, some 1] [] [] [some 3, none] [] []).dist.getD 1
      none).isSome = true) := by
  refine (c8_ffill_monotone [some 0, some 1] [] [] [some 3, none] [] []).1 0 1
    (by norm_num) ?_ ?_
  · rw [c8ExampleDist]
    norm_num
  · rw [c8ExampleDist]
    rfl

/-! ## C9: split completeness -/

/-- `colMax` step equation. -/
theorem colMax_cons (x : Option ℚ) (t : List (Option ℚ)) :
    colMax (x :: t) =
      match x, colMax t with
      | none, a => a
      | some v, none => some v
      | some v, some w => some (max v w) := rfl

/-- `colMin` step equation. -/
theorem colMin_cons (x : Option ℚ) (t : List (Option ℚ)) :
    colMin (x :: t) =
      match x, colMin t with
      | none, a => a
      | some v, none => some v
      | some v, some w => some (min v w) := rfl

/-- A column containing a value has a non-null maximum. -/
theorem colMax_ne_none : ∀ (l : List (Option ℚ)) (v : ℚ), some v ∈ l → colMax l ≠ none
  | [], v, hv => by simp at hv
  | x :: t, v, hv => by
    rw [colMax_cons]
    rcases List.mem_cons.mp hv with h | h
    · rw [← h]
      cases colMax t <;> simp
    · cases x with
      | none => exact colMax_ne_none t v h
      | some u => cases colMax t <;> simp

/-- A column containing a value has a non-null minimum. -/
theorem colMin_ne_none : ∀ (l : List (Option ℚ)) (v : ℚ), some v ∈ l → colMin l ≠ none
  | [], v, hv => by simp at hv
  | x :: t, v, hv => by
    rw [colMin_cons]
    rcases List.mem_cons.mp hv with h | h
    · rw [← h]
      cases colMin t <;> simp
    · cases x with
      | none => exact colMin_ne_none t v h
      | some u => cases colMin t <;> simp

/-- The NaN-skipping maximum bounds every value of the column. -/
theorem colMax_ge : ∀ (l : List (Option ℚ)) (m v : ℚ),
    colMax l = some m → some v ∈ l → v ≤ m
  | [], m, v, hm, hv => by simp at hv
  | x :: t, m, v, hm, hv => by
    rw [colMax_cons] at hm
    rcases List.mem_cons.mp hv with h | h
    · rw [← h] at hm
      cases ht : colMax t with
      | none =>
        rw [ht] at hm
        simp at hm
        rw [hm]
      | some w =>
        rw [ht] at hm
        simp at hm
        rw [← hm]
        exact le_max_left _ _
    · cases x with
      | none => exact colMax_ge t m v hm h
      | some u =>
        cases ht : colMax t with
        | none => exact absurd ht (colMax_ne_none t v h)
        | some w =>
          rw [ht] at hm
          simp at hm
          rw [← hm]
          exact le_trans (colMax_ge t w v ht h) (le_max_right _ _)

/-- The NaN-skipping minimum bounds every value of the column from below. -/
theorem colMin_le : ∀ (l : List (Option ℚ)) (m v : ℚ),
    colMin l = some m → some v ∈ l → m ≤ v
  | [], m, v, hm, hv => by simp at hv
  | x :: t, m, v, hm, hv => by
    rw [colMin_cons] at hm
    rcases List.mem_cons.mp hv with h | h
    · rw [← h] at hm
      cases ht : colMin t with
      | none =>
        rw [ht] at hm
        simp at hm
        rw [hm]
      | some w =>
        rw [ht] at hm
        simp at hm
        rw [← hm]
        exact min_le_left _ _
    · cases x with
      | none => exact colMin_le t m v hm h
      | some u =>
        cases ht : colMin t with
        | none => exact absurd ht (colMin_ne_none t v h)
        | some w =>
          rw [ht] at hm
          simp at hm
          rw [← hm]
          exact le_trans (min_le_right _ _) (colMin_le t w v ht h)

/-- The NaN-skipping maximum is one of the column's values. -/
theorem colMax_mem : ∀ (l : List (Option ℚ)) (m : ℚ), colMax l = some m → some m ∈ l
  | [], m, hm => by simp [colMax] at hm
  | x :: t, m, hm => by
    rw [colMax_cons] at hm
    cases x with
    | none => exact List.mem_cons_of_mem _ (colMax_mem t m hm)
    | some u =>
      cases ht : colMax t with
      | none =>
        rw [ht] at hm
        simp at hm
        rw [← hm]
        exact List.mem_cons_self _ _
      | some w =>
        rw [ht] at hm
        simp at hm
        rcases max_choice u w with h | h
        · rw [h] at hm
          rw [← hm]
          exact List.mem_cons_self _ _
        · rw [h] at hm
          rw [← hm]
          exact List.mem_cons_of_mem _ (colMax_mem t w ht)

/-- Decomposition of a successful `mkSplit`. -/
theorem mkSplit_some (rows : List SRow) (hasCad : Bool) (m : ℚ) (k : ℕ) (s : Split)
    (h : mkSplit rows hasCad m k = some s) :
    ((k : ℚ) + 1) * 1000 ≤ m ∧ s.km = k + 1 ∧ windowRows rows k ≠ [] ∧
    s.distance = coveredKm rows k := by
  by_cases hc : ((k : ℚ) + 1) * 1000 ≤ m
  · rw [mkSplit, if_pos hc] at h
    by_cases he : (windowRows rows k).isEmpty
    · rw [if_pos he] at h
      exact absurd h (by simp)
    · rw [if_neg he] at h
      have hs := Option.some.inj h
      refine ⟨hc, ?_, by simpa using he, ?_⟩
      · rw [← hs]
      · rw [← hs]
  · rw [mkSplit, if_neg hc] at h
    exact absurd h (by simp)

/-- Every selected row of window `k` has a distance value inside the
window. -/
theorem windowRows_mem (rows : List SRow) (k : ℕ) (r : SRow)
    (hr : r ∈ windowRows rows k) :
    r ∈ rows ∧ ∃ d, r.dist = some d ∧ (k : ℚ) * 1000 ≤ d ∧ d < ((k : ℚ) + 1) * 1000 := by
  obtain ⟨hmem, hw⟩ := List.mem_filter.mp hr
  refine ⟨hmem, ?_⟩
  cases hd : r.dist with
  | none =>
    rw [hd] at hw
    simp [inWindow] at hw
  | some v =>
    rw [hd] at hw
    by_cases hcond : ((k : ℚ) * 1000 ≤ v ∧ v < ((k : ℚ) + 1) * 1000)
    · exact ⟨v, rfl, hcond.1, hcond.2⟩
    · rw [inWindow, if_neg hcond] at hw
      exact absurd hw (by simp)

/-- The first selected distance of a non-empty window `k` is a column value
lying inside the window. -/
theorem headDist_spec (rows : List SRow) (k : ℕ) (hne : windowRows rows k ≠ []) :
    some (headDist (windowRows rows k)) ∈ rows.map SRow.dist ∧
    (k : ℚ) * 1000 ≤ headDist (windowRows rows k) ∧
    headDist (windowRows rows k) < ((k : ℚ) + 1) * 1000 := by
  cases hw : windowRows rows k with
  | nil => exact absurd hw hne
  | cons r t =>
    have hr : r ∈ windowRows rows k := by
      rw [hw]
      exact List.mem_cons_self _ _
    obtain ⟨hmem, d, hd, h1, h2⟩ := windowRows_mem rows k r hr
    have hh : headDist (r :: t) = d := by
      rw [show headDist (r :: t) = r.dist.getD 0 from rfl, hd]
      rfl
    rw [hh]
    refine ⟨?_, h1, h2⟩
    rw [← hd]
    exact List.mem_map_of_mem SRow.dist hmem

/-- The last selected distance of a non-empty window `k` is a column value
lying inside the window. -/
theorem lastDist_spec (rows : List SRow) (k : ℕ) (hne : windowRows rows k ≠ []) :
    some (lastDist (windowRows rows k)) ∈ rows.map SRow.dist ∧
    (k : ℚ) * 1000 ≤ lastDist (windowRows rows k) ∧
    lastDist (windowRows rows k) < ((k : ℚ) + 1) * 1000 := by
  have hg := List.getLast?_eq_getLast (windowRows rows k) hne
  have hr : (windowRows rows k).getLast hne ∈ windowRows rows k := List.getLast_mem hne
  obtain ⟨hmem, d, hd, h1, h2⟩ := windowRows_mem rows k _ hr
  have hh : lastDist (windowRows rows k) = d := by
    rw [lastDist, hg]
    show ((windowRows rows k).getLast hne).dist.getD 0 = d
    rw [hd]
    rfl
  rw [hh]
  refine ⟨?_, h1, h2⟩
  rw [← hd]
  exact List.mem_map_of_mem SRow.dist hmem

/-- Telescoping bound on the emitted covered distances: summing from window
index `a` on, the total covered distance is at most the distance from
`max(a*1000, min-distance)` up to the maximum `m`. -/
theorem splits_sum_bound (rows : List SRow) (hasCad : Bool) (m mn : ℚ)
    (hmn : colMin (rows.map SRow.dist) = some mn) :
    ∀ (len a : ℕ),
      (((List.range' a len).filterMap (mkSplit rows hasCad m)).map Split.distance).sum * 1000
        ≤ max 0 (m - max ((a : ℚ) * 1000) mn) := by
  intro len
  induction len with
  | zero =>
    intro a
    simp
  | succ n ih =>
    intro a
    rw [List.range'_succ]
    cases h : mkSplit rows hasCad m a with
    | none =>
      rw [List.filterMap_cons_none h]
      refine le_trans (ih (a + 1)) (max_le_max le_rfl ?_)
      refine sub_le_sub_left (max_le_max ?_ le_rfl) m
      push_cast
      linarith
    | some s =>
      rw [List.filterMap_cons_some h]
      obtain ⟨hc, hkm, hwne, hdist⟩ := mkSplit_some rows hasCad m a s h
      obtain ⟨hmemH, h1H, h2H⟩ := headDist_spec rows a hwne
      obtain ⟨hmemL, h1L, h2L⟩ := lastDist_spec rows a hwne
      have hminH : mn ≤ headDist (windowRows rows a) :=
        colMin_le _ _ _ hmn hmemH
      have hih := ih (a + 1)
      have hcast : (((a + 1 : ℕ)) : ℚ) * 1000 = ((a : ℚ) + 1) * 1000 := by
        push_cast
        ring
      have hmnle : mn ≤ ((a : ℚ) + 1) * 1000 := le_trans hminH (le_of_lt h2H)
      rw [hcast, max_eq_left hmnle, max_eq_right (by linarith)] at hih
      rw [List.map_cons, List.sum_cons, hdist]
      refine le_trans ?_ (le_max_right 0 _)
      have hA : max ((a : ℚ) * 1000) mn ≤ headDist (windowRows rows a) :=
        max_le h1H hminH
      rw [coveredKm]
      have hexp : ((lastDist (windowRows rows a) - headDist (windowRows rows a)) / 1000 +
            ((List.filterMap (mkSplit rows hasCad m) (List.range' (a + 1) n)).map
              Split.distance).sum) * 1000
          = (lastDist (windowRows rows a) - headDist (windowRows rows a)) +
            ((List.filterMap (mkSplit rows hasCad m) (List.range' (a + 1) n)).map
              Split.distance).sum * 1000 := by
        ring
      rw [hexp]
      linarith

/-- C9: the splits calculator emits splits only for whole 1000 m windows
`[k*1000, (k+1)*1000)` lying fully below the maximum recorded distance
(`(k+1)*1000 ≤ max`), so the final partial window is never emitted; every
visited window start satisfies `k*1000 < max` (the loop's termination
condition); and the total covered distance (in meters, i.e.
`covered_distance_km * 1000` summed over all splits) never exceeds the
track's total distance `max - min`, hence never exceeds `max` when distances
are non-negative. -/
theorem c9_split_completeness (rows : List SRow) (hasCad : Bool) (m mn : ℚ)
    (hM : colMax (rows.map SRow.dist) = some m)
    (hmn : colMin (rows.map SRow.dist) = some mn) :
    (∀ s ∈ _calculate_splits rows hasCad, ∃ k : ℕ,
      s.km = k + 1 ∧ ((k : ℚ) + 1) * 1000 ≤ m ∧ (k : ℚ) * 1000 < m) ∧
    ((_calculate_splits rows hasCad).map Split.distance).sum * 1000 ≤ m - mn ∧
    (0 ≤ mn → ((_calculate_splits rows hasCad).map Split.distance).sum * 1000 ≤ m) := by
  have hrne : rows ≠ [] := by
    intro h
    rw [h] at hM
    simp [colMax] at hM
  have hsplits : _calculate_splits rows hasCad
      = (List.range (Int.ceil (m / 1000)).toNat).filterMap (mkSplit rows hasCad m) := by
    rw [_calculate_splits, if_neg (by simpa using hrne), hM]
  have hmnm : mn ≤ m := colMin_le _ _ _ hmn (colMax_mem _ _ hM)
  have hsum : ((_calculate_splits rows hasCad).map Split.distance).sum * 1000 ≤ m - mn := by
    have hb := splits_sum_bound rows hasCad m mn hmn (Int.ceil (m / 1000)).toNat 0
    rw [List.range_eq_range' _] at hsplits
    rw [hsplits]
    refine le_trans hb ?_
    have h0 : ((0 : ℕ) : ℚ) * 1000 = 0 := by norm_num
    rw [h0]
    rcases le_total 0 mn with h | h
    · rw [max_eq_right h]
      exact max_le (by linarith) le_rfl
    · rw [max_eq_left h]
      exact max_le (by linarith) (by linarith)
  refine ⟨?_, hsum, fun h0mn => by linarith⟩
  intro s hs
  rw [hsplits] at hs
  obtain ⟨k, _, hmk⟩ := List.mem_filterMap.mp hs
  obtain ⟨hc, hkm, _, _⟩ := mkSplit_some rows hasCad m k s hmk
  refine ⟨k, hkm, hc, ?_⟩
  have hexpand : ((k : ℚ) + 1) * 1000 = (k : ℚ) * 1000 + 1000 := by ring
  rw [hexpand] at hc
  linarith

/-- Maximum distance of the example split input. -/
theorem exRows_max : colMax (exRows.map SRow.dist) = some 2100 := by
  norm_num [exRows, colMax, max_def]

/-- Minimum distance of the example split input. -/
theorem exRows_min : colMin (exRows.map SRow.dist) = some 0 := by
  norm_num [exRows, colMin, min_def]

/-- C9 witness: on the 2100 m example track, the summed covered distance of
the emitted splits does not exceed the track's total distance. -/
theorem c9_witness :
    ((_calculate_splits exRows false).map Split.distance).sum * 1000 ≤ 2100 - 0 :=
  (c9_split_completeness exRows false 2100 0 exRows_max exRows_min).2.1

end Strava
